import Mathlib

set_option maxHeartbeats 1000000
set_option maxRecDepth 4000

/-!
Shallow embedding of the resume-page template renderer.

The program consists of two near-duplicate script revisions:
the canonical one defines a permissive template resolver
(function render, src/index.js lines 25-33) that replaces every
lazily matched placeholder token with the value found by walking
the data object along the trimmed, bracket-normalized, dot-split
path, guarded by truthiness at each step; the older revision
(src/unnamed/part_000) defines a strict resolver with a word/dot
character class and an unguarded reduce.  Section renderers
(renderHeader, renderSkills, renderExperience, ...) guard on a
missing container or section key, map list-shaped data to markup
and splice it at a fixed marker substring.  A delegated click
handler toggles image-zoom overlays, gated on viewport width.
-/

/-- JavaScript runtime values, as far as the renderer observes them:
undefined, null, booleans, (integral) numbers, strings, arrays and
plain objects with string keys. -/
inductive JSValue where
  | undefined : JSValue
  | null : JSValue
  | bool : Bool → JSValue
  | num : Int → JSValue
  | str : String → JSValue
  | arr : List JSValue → JSValue
  | obj : List (String × JSValue) → JSValue

/-- JavaScript truthiness: undefined, null, false, 0 and the empty
string are falsy; every array and object is truthy. -/
def jsTruthy : JSValue → Bool
  | .undefined => false
  | .null => false
  | .bool b => b
  | .num n => n != 0
  | .str s => s != ""
  | .arr _ => true
  | .obj _ => true

/-- Tests for the undefined value. -/
def isUndef : JSValue → Bool
  | .undefined => true
  | _ => false

/-- Tests for the null value. -/
def isNull : JSValue → Bool
  | .null => true
  | _ => false

/-- Numeric value of a list of decimal digit characters. -/
def digitsToNat (l : List Char) : Nat :=
  l.foldl (fun n c => 10 * n + (c.toNat - 48)) 0

/-- A property key is an array (or string) index exactly when it is the
canonical decimal form of a natural number: one or more digits with no
leading zero, except the single digit 0 itself. -/
def canonIndex (l : List Char) : Option Nat :=
  if l = ('0' :: []) then some 0
  else if !l.isEmpty && l.all Char.isDigit && l.headD ' ' != '0' then some (digitsToNat l)
  else none

/-- Property lookup on an object literal: first binding of the key wins,
a missing key reads as undefined. -/
def lookupField : List (String × JSValue) → List Char → JSValue
  | [], _ => .undefined
  | f :: rest, key => if f.1.data = key then f.2 else lookupField rest key

/-- The bracket read v[key] used by both resolvers: object property
lookup; array length and canonical-index element access; string length
and single-character access; undefined for every other base value. -/
def jsIndex : JSValue → List Char → JSValue
  | .obj fields, key => lookupField fields key
  | .arr xs, key =>
      if key = ("length").data then .num (xs.length : Int)
      else
        match canonIndex key with
        | some i => xs.getD i .undefined
        | none => .undefined
  | .str s, key =>
      if key = ("length").data then .num (s.length : Int)
      else
        match canonIndex key with
        | some i =>
            if i < s.data.length then .str (String.mk ((s.data.getD i ' ') :: []))
            else .undefined
        | none => .undefined
  | _, _ => .undefined

mutual

/-- The String() coercion that String.prototype.replace applies to a
replacer result and that template literals apply to interpolations. -/
def jsToString : JSValue → List Char
  | .undefined => ("undefined").data
  | .null => ("null").data
  | .bool true => ("true").data
  | .bool false => ("false").data
  | .num n => (toString n).data
  | .str s => s.data
  | .arr xs => arrJoin xs
  | .obj _ => ("[object Object]").data

/-- Array.prototype.toString, that is join with a comma, where null and
undefined elements become empty. -/
def arrJoin : List JSValue → List Char
  | [] => []
  | x :: [] =>
      (match x with
       | .undefined => []
       | .null => []
       | v => jsToString v)
  | x :: y :: rest =>
      (match x with
       | .undefined => []
       | .null => []
       | v => jsToString v) ++ ',' :: arrJoin (y :: rest)

end

/-- The line terminators that the dot of a JavaScript regular expression
does not match. -/
def isLineTerm (c : Char) : Bool :=
  c == '\n' || c == '\r' || c == Char.ofNat 8232 || c == Char.ofNat 8233

/-- White space removed by String.prototype.trim (the cases relevant to
template paths). -/
def isJSSpace (c : Char) : Bool :=
  c == ' ' || c == '\t' || c == '\n' || c == '\r' || c == Char.ofNat 11 ||
  c == Char.ofNat 12 || c == Char.ofNat 160 || c == Char.ofNat 65279

/-- String.prototype.trim. -/
def trimJS (l : List Char) : List Char :=
  ((l.dropWhile isJSSpace).reverse.dropWhile isJSSpace).reverse

/-- Longest prefix of characters satisfying p, with the remainder. -/
def spanP (p : Char → Bool) : List Char → List Char × List Char
  | [] => ([], [])
  | c :: cs =>
      if p c then
        ((spanP p cs).1.cons c, (spanP p cs).2)
      else ([], c :: cs)

/-- Worker for the replacement of every bracketed index by a dotted
segment, the JavaScript path.replace of the bracket regex by a dot and
the captured digits.  Occurrences of the pattern cannot overlap, since
a match body holds only digits and a closing bracket, so the global
replacement rewrites every opening bracket whose lookahead shows one or
more digits followed by a closing bracket, emits the digits verbatim
(the flag records that the pending closing bracket of a rewritten match
must be dropped) and copies everything else. -/
def normBAux : Bool → List Char → List Char
  | _, [] => []
  | true, c :: rest =>
      if c == ']' then normBAux false rest else c :: normBAux true rest
  | false, c :: rest =>
      if c == '[' then
        (if !(spanP Char.isDigit rest).1.isEmpty && (spanP Char.isDigit rest).2.headD ' ' == ']'
         then '.' :: normBAux true rest
         else c :: normBAux false rest)
      else c :: normBAux false rest

/-- path.trim().replace of every bracketed index by a dotted segment,
line 27 of src/index.js (the replace part). -/
def normBrackets (l : List Char) : List Char := normBAux false l

/-- String.prototype.split on a dot. -/
def splitOnDot : List Char → List (List Char)
  | [] => [] :: []
  | c :: rest =>
      if c == '.' then [] :: splitOnDot rest
      else
        match splitOnDot rest with
        | s :: ss => (c :: s) :: ss
        | [] => (c :: []) :: []

/-- One step of the permissive reduce, line 29 of src/index.js: the
ternary returns acc[key] when acc is truthy and acc[key] is not
undefined, and undefined otherwise. -/
def permStep (acc : JSValue) (key : List Char) : JSValue :=
  if jsTruthy acc && !(isUndef (jsIndex acc key)) then jsIndex acc key else .undefined

/-- The cleaned path of line 27 of src/index.js: trim, then normalize
bracketed indices to dotted segments. -/
def cleanPathOf (interior : List Char) : List Char := normBrackets (trimJS interior)

/-- The value a placeholder interior resolves to, lines 27-30 of
src/index.js: split the cleaned path on dots and reduce over the data
object. -/
def pathValue (data : JSValue) (interior : List Char) : JSValue :=
  (splitOnDot (cleanPathOf interior)).foldl permStep data

/-- The full replacer callback of lines 26-31 of src/index.js: the
resolved value coerced to a string, or the empty string when it is
undefined. -/
def replacePlaceholder (data : JSValue) (interior : List Char) : List Char :=
  if isUndef (pathValue data interior) then [] else jsToString (pathValue data interior)

/-- Locates the first closing double brace: on success returns the
characters before it (the lazy interior of the placeholder regex, which
must not contain a line terminator, since the dot does not match one)
and the characters after it. -/
def findClose : List Char → Option (List Char × List Char)
  | [] => none
  | _ :: [] => none
  | c1 :: c2 :: rest =>
      if c1 == '}' && c2 == '}' then some ([], rest)
      else if isLineTerm c1 then none
      else (findClose (c2 :: rest)).map (fun pr => (c1 :: pr.1, pr.2))

theorem findClose_some_length :
    ∀ l pr, findClose l = some pr → pr.2.length ≤ l.length := by
  intro l
  induction l with
  | nil => intro pr h; simp [findClose] at h
  | cons c1 t ih =>
      cases t with
      | nil => intro pr h; simp [findClose] at h
      | cons c2 rest =>
          intro pr h
          simp only [findClose] at h
          by_cases h1 : (c1 == '}' && c2 == '}') = true
          · rw [if_pos h1] at h
            cases h
            simp
            omega
          · rw [if_neg h1] at h
            by_cases h2 : isLineTerm c1 = true
            · rw [if_pos h2] at h; cases h
            · rw [if_neg h2] at h
              cases hfc : findClose (c2 :: rest) with
              | none => rw [hfc] at h; cases h
              | some pr0 =>
                  rw [hfc] at h
                  cases h
                  have := ih pr0 hfc
                  simp at this ⊢
                  omega

/-- The template scan of line 26 of src/index.js: the global replace of
the lazy double-brace placeholder regex.  At a double opening brace the
engine looks for the earliest closing double brace with no line
terminator before it; on success the interior is fed to the replacer
and scanning resumes after the match, on failure the engine advances a
single character. -/
def renderAux (data : JSValue) : List Char → List Char
  | [] => []
  | c :: [] => c :: []
  | c1 :: c2 :: rest =>
      if c1 == '{' && c2 == '{' then
        match hfc : findClose rest with
        | some pr => replacePlaceholder data pr.1 ++ renderAux data pr.2
        | none => c1 :: renderAux data (c2 :: rest)
      else c1 :: renderAux data (c2 :: rest)
termination_by l => l.length
decreasing_by
  · have := findClose_some_length rest pr hfc
    simp
    omega
  · simp
  · simp

/-- function render of src/index.js lines 25-33. -/
def renderString (data : JSValue) (template : String) : String :=
  String.mk (renderAux data template.data)

/-! ### Decomposition of a template into literal text and placeholders -/

/-- A token of the scan: a literal character left unchanged, or the
interior of a recognized placeholder. -/
inductive Tok where
  | lit : Char → Tok
  | ph : List Char → Tok

/-- The decomposition that the scan of line 26 of src/index.js induces
on a template: same traversal as renderAux, recording placeholder
interiors instead of replacing them. -/
def tokenize : List Char → List Tok
  | [] => []
  | c :: [] => .lit c :: []
  | c1 :: c2 :: rest =>
      if c1 == '{' && c2 == '{' then
        match hfc : findClose rest with
        | some pr => .ph pr.1 :: tokenize pr.2
        | none => .lit c1 :: tokenize (c2 :: rest)
      else .lit c1 :: tokenize (c2 :: rest)
termination_by l => l.length
decreasing_by
  · have := findClose_some_length rest pr hfc
    simp
    omega
  · simp
  · simp

/-- Rebuilds the exact template text from its tokens. -/
def flattenToks : List Tok → List Char
  | [] => []
  | .lit c :: ts => c :: flattenToks ts
  | .ph p :: ts => '{' :: '{' :: (p ++ '}' :: '}' :: flattenToks ts)

/-- Renders a token list: literal characters verbatim, placeholders
through the replacer. -/
def renderToks (data : JSValue) : List Tok → List Char
  | [] => []
  | .lit c :: ts => c :: renderToks data ts
  | .ph p :: ts => replacePlaceholder data p ++ renderToks data ts

/-! ### The strict resolver of the older script revision -/

/-- The word or dot character class of the strict placeholder regex of
src/unnamed/part_000 line 26. -/
def isWordDot (c : Char) : Bool :=
  c.isAlpha || c.isDigit || c == '_' || c == '.'

/-- The unguarded reduce of src/unnamed/part_000 line 27: reading a
property of undefined or null throws, every other base yields the
bracket read. -/
def strictResolve (data : JSValue) (segs : List (List Char)) : Option JSValue :=
  segs.foldl
    (fun acc key => acc.bind (fun v =>
      if isUndef v || isNull v then none else some (jsIndex v key)))
    (some data)

/-- The strict replacer callback: the reduced value coerced to a string
(undefined included), or a thrown error. -/
def strictReplace (data : JSValue) (run : List Char) : Option (List Char) :=
  (strictResolve data (splitOnDot run)).map jsToString

theorem spanP_snd_length (p : Char → Bool) :
    ∀ l : List Char, (spanP p l).2.length ≤ l.length := by
  intro l
  induction l with
  | nil => simp [spanP]
  | cons c cs ih =>
      rw [spanP]
      by_cases hp : p c = true
      · rw [if_pos hp]
        simp
        omega
      · rw [if_neg hp]

/-- The template scan of src/unnamed/part_000 lines 25-29: the greedy
word-or-dot placeholder regex, with a thrown error propagating out of
the whole replace. -/
def strictRenderAux (data : JSValue) : List Char → Option (List Char)
  | [] => some []
  | c :: [] => some (c :: [])
  | c1 :: c2 :: rest =>
      if c1 == '{' && c2 == '{' then
        (if hcl : (spanP isWordDot rest).2.take 2 = ('}' :: '}' :: []) then
          (strictReplace data (spanP isWordDot rest).1).bind
            (fun v => (strictRenderAux data ((spanP isWordDot rest).2.drop 2)).map
              (fun r => v ++ r))
         else (strictRenderAux data (c2 :: rest)).map (fun r => c1 :: r))
      else (strictRenderAux data (c2 :: rest)).map (fun r => c1 :: r)
termination_by l => l.length
decreasing_by
  · have h1 : (spanP isWordDot rest).2.length ≤ rest.length := spanP_snd_length isWordDot rest
    have h2 : ((spanP isWordDot rest).2.drop 2).length ≤ (spanP isWordDot rest).2.length := by
      rw [List.length_drop]
      omega
    simp
    omega
  · simp
  · simp

/-! ### Section renderers -/

/-- Whether pat occurs at the head of l. -/
def headMatches : List Char → List Char → Bool
  | [], _ => true
  | _ :: _, [] => false
  | p :: ps, c :: cs => p == c && headMatches ps cs

/-- String.prototype.replace with a plain string pattern: replaces the
first occurrence only, returns the string unchanged when the pattern
does not occur. -/
def replaceFirstStr (pat rep : List Char) : List Char → List Char
  | [] => if pat.isEmpty then rep else []
  | c :: rest =>
      if headMatches pat (c :: rest) then rep ++ (c :: rest).drop pat.length
      else c :: replaceFirstStr pat rep rest

/-- Extracts the element list of an array value; everything else has no
map method, so calling map on it throws. -/
def asArr : JSValue → Option (List JSValue)
  | .arr xs => some xs
  | _ => none

/-- One social link of renderHeader, src/index.js lines 59-63. -/
def socialLink (item : JSValue) : List Char :=
  ("\n        <a class=\"social-media-link\" href=\"").data ++
  jsToString (jsIndex item ("href").data) ++
  ("\" target=\"_blank\" ").data ++
  (if jsTruthy (jsIndex item ("onclick").data) then
    ("onclick=\"").data ++ jsToString (jsIndex item ("onclick").data) ++ ("\"").data
   else []) ++
  (">\n            <i class=\"").data ++
  jsToString (jsIndex item ("icon").data) ++
  ("\"></i>\n        </a>\n    ").data

/-- renderHeader, src/index.js lines 56-65.  The container is modelled
by its innerHTML content, absent when the DOM lookup returned null; the
result is the container state after the call, or an error when the body
threw (social missing or not an array). -/
def renderHeader (container : Option (List Char)) (template : List Char) (data : JSValue) :
    Except Unit (Option (List Char)) :=
  match container with
  | none => .ok none
  | some content =>
      if !jsTruthy (jsIndex data ("nav").data) then .ok (some content)
      else
        match asArr (jsIndex (jsIndex data ("nav").data) ("social").data) with
        | none => .error ()
        | some social =>
            let renderedHtml := renderAux data template
            let socialLinksHtml := (social.map socialLink).foldr (· ++ ·) []
            .ok (some (replaceFirstStr
              ("<div class=\"social-media\"></div>").data
              (("<div class=\"social-media\">").data ++ socialLinksHtml ++ ("</div>").data)
              renderedHtml))

/-- One list item of a skill block, src/index.js line 98. -/
def liItem (item : JSValue) : List Char :=
  ("<li>").data ++ jsToString item ++ ("</li>").data

/-- One skill block of renderSkills, src/index.js lines 94-100; throws
(none) when the items field has no map method. -/
def skillBlock (skill : JSValue) : Option (List Char) :=
  match asArr (jsIndex skill ("items").data) with
  | none => none
  | some items =>
      some (("\n        <div class=\"col-12 col-md-4\">\n            <h3 class=\"skill-name\">").data ++
        jsToString (jsIndex skill ("name").data) ++
        ("</h3>\n            <p class=\"skill-info\">").data ++
        jsToString (jsIndex skill ("info").data) ++
        ("</p>\n            <ul>").data ++
        (items.map liItem).foldr (· ++ ·) [] ++
        ("</ul>\n        </div>\n    ").data)

/-- Array.prototype.map with the skill-block callback, which can
throw: the first throw aborts the whole map. -/
def mapBlocks : List JSValue → Option (List (List Char))
  | [] => some []
  | s :: rest => (skillBlock s).bind (fun b => (mapBlocks rest).map (fun bs => b :: bs))

/-- The skills map-then-join of renderSkills, src/index.js lines
94-100. -/
def skillsHtmlOf (skills : List JSValue) : Option (List Char) :=
  (mapBlocks skills).map (fun bs => bs.foldr (· ++ ·) [])

/-- One certificate block of renderSkills, src/index.js lines
103-118. -/
def certBlock (cert : JSValue) : List Char :=
  ("\n        <div class=\"col-12 col-md-6\">\n            <p class=\"skill-description\">").data ++
  jsToString (jsIndex cert ("description").data) ++
  ("</p>\n            <img class=\"skill-img\" src=\"").data ++
  jsToString (jsIndex cert ("img_src").data) ++
  ("\" alt=\"").data ++
  jsToString (jsIndex cert ("alt").data) ++
  ("\" />\n            <div class=\"more-item\">\n                <div class=\"more-inf\">\n                    <div class=\"more-base\">\n                        <span class=\"close\">&times;</span>\n                        <div class=\"scroll\">\n                            <img class=\"skill-img-big\" src=\"").data ++
  jsToString (jsIndex cert ("img_src").data) ++
  ("\" alt=\"").data ++
  jsToString (jsIndex cert ("alt").data) ++
  ("\" />\n                        </div>\n                    </div>\n                </div>\n            </div>\n        </div>\n    ").data

/-- renderSkills, src/index.js lines 91-121: guard, template render,
skills map-join spliced at the skills-list marker, certificates
map-join spliced at the certificates-list marker, single innerHTML
assignment at the end (so a throw leaves the container unchanged,
modelled as error). -/
def renderSkills (container : Option (List Char)) (template : List Char) (data : JSValue) :
    Except Unit (Option (List Char)) :=
  match container with
  | none => .ok none
  | some content =>
      if !jsTruthy (jsIndex data ("skills_section").data) then .ok (some content)
      else
        let renderedHtml := renderAux data template
        match asArr (jsIndex (jsIndex data ("skills_section").data) ("skills").data) with
        | none => .error ()
        | some skills =>
            match skillsHtmlOf skills with
            | none => .error ()
            | some skillsHtml =>
                let afterSkills := replaceFirstStr
                  ("id=\"skills-list\">").data
                  (("id=\"skills-list\">").data ++ skillsHtml)
                  renderedHtml
                match asArr (jsIndex (jsIndex (jsIndex data ("skills_section").data) ("certificates").data) ("items").data) with
                | none => .error ()
                | some certs =>
                    let certificatesHtml := (certs.map certBlock).foldr (· ++ ·) []
                    .ok (some (replaceFirstStr
                      ("id=\"certificates-list\">").data
                      (("id=\"certificates-list\">").data ++ certificatesHtml)
                      afterSkills))

/-- One description list item of a job, src/index.js lines 203-205. -/
def experienceDetail (item : JSValue) : List Char :=
  ("<li class=\"experience-detail\">").data ++ jsToString item ++ ("</li>").data

/-- One job block of renderExperience, src/index.js lines 201-220,
including the Array.isArray fallback for the description list and the
separator rule before every block but the first. -/
def jobBlock (index : Nat) (job : JSValue) : List Char :=
  let descriptions := match jsIndex job ("description").data with
    | .arr xs => xs
    | _ => []
  let descListHtml := (descriptions.map experienceDetail).foldr (· ++ ·) []
  ("\n            ").data ++
  (if index > 0 then ("<hr />").data else []) ++
  ("\n            <div class=\"experience-item\">\n                <h3 class=\"job-title\">").data ++
  jsToString (jsIndex job ("title").data) ++
  ("</h3>\n                <div class=\"job-note\">\n                    <span class=\"company\"><i class=\"fa-solid fa-building\"></i> ").data ++
  jsToString (jsIndex job ("company").data) ++
  ("</span>\n                    <span class=\"duration\"><i class=\"fa-solid fa-calendar-days\"></i> ").data ++
  jsToString (jsIndex job ("duration").data) ++
  ("</span>\n                </div>\n                <ul class=\"experience-details-list\">\n                    ").data ++
  descListHtml ++
  ("\n                </ul>\n            </div>\n        ").data

/-- renderExperience, src/index.js lines 196-223. -/
def renderExperience (container : Option (List Char)) (template : List Char) (data : JSValue) :
    Except Unit (Option (List Char)) :=
  match container with
  | none => .ok none
  | some content =>
      if !jsTruthy (jsIndex data ("experience_section").data) then .ok (some content)
      else
        match asArr (jsIndex (jsIndex data ("experience_section").data) ("jobs").data) with
        | none => .error ()
        | some jobs =>
            let renderedHtml := renderAux data template
            let jobsHtml := (jobs.enum.map (fun p => jobBlock p.1 p.2)).foldr (· ++ ·) []
            .ok (some (replaceFirstStr
              ("id=\"experience-list\">").data
              (("id=\"experience-list\">").data ++ jobsHtml)
              renderedHtml))

/-! ### Overlay click handling -/

/-- isSmallScreen, src/index.js lines 7-9: despite its name the
function returns true when the window is at least 1024 pixels wide. -/
def isSmallScreen (innerWidth : Nat) : Bool :=
  innerWidth ≥ 1024

/-- Abstraction of a delegated click target: which of the three class
tests of the handler it satisfies, and the overlay element each branch
would locate through the sibling or closest-ancestor DOM walk (none
when the walk finds nothing). -/
structure ClickTarget where
  hasSkillImg : Bool
  hasClose : Bool
  hasMoreInf : Bool
  imgOverlay : Option Nat
  closeOverlay : Option Nat
  infOverlay : Option Nat

/-- Sets the display state of one overlay: true models display block
(Visible), false models display none (Hidden). -/
def setDisplay (st : Nat → Bool) (i : Nat) (v : Bool) : Nat → Bool :=
  fun j => if j = i then v else st j

/-- The delegated click handler installed by initializeEventListeners,
src/index.js lines 233-266: nothing happens below the width threshold;
otherwise the skill-img branch shows the located overlay, then the
close branch hides the enclosing overlay, then the more-inf background
branch hides it too (the three tests are sequential, not exclusive). -/
def handleClick (innerWidth : Nat) (t : ClickTarget) (st : Nat → Bool) : Nat → Bool :=
  if !isSmallScreen innerWidth then st
  else
    let st1 := if t.hasSkillImg then
        match t.imgOverlay with
        | some i => setDisplay st i true
        | none => st
      else st
    let st2 := if t.hasClose then
        match t.closeOverlay with
        | some i => setDisplay st1 i false
        | none => st1
      else st1
    let st3 := if t.hasMoreInf then
        match t.infOverlay with
        | some i => setDisplay st2 i false
        | none => st2
      else st2
    st3

/-! ### Behaviour of the permissive scan -/

theorem renderAux_nil (data : JSValue) : renderAux data [] = [] := by
  simp [renderAux]

theorem renderAux_cons (data : JSValue) (c : Char) (l : List Char) (h : c ≠ '{') :
    renderAux data (c :: l) = c :: renderAux data l := by
  cases l with
  | nil => simp [renderAux]
  | cons c2 rest =>
      rw [renderAux]
      rw [if_neg]
      simp [h]

theorem renderAux_append (data : JSValue) (t1 l : List Char) (h : ∀ c ∈ t1, c ≠ '{') :
    renderAux data (t1 ++ l) = t1 ++ renderAux data l := by
  induction t1 with
  | nil => simp
  | cons c t ih =>
      simp only [List.cons_append]
      rw [renderAux_cons data c (t ++ l) (h c (by simp))]
      rw [ih (fun x hx => h x (by simp [hx]))]

theorem findClose_append (p t2 : List Char) (h : ∀ c ∈ p, c ≠ '}' ∧ isLineTerm c = false) :
    findClose (p ++ '}' :: '}' :: t2) = some (p, t2) := by
  induction p with
  | nil => simp [findClose]
  | cons c rest ih =>
      have hc := h c (by simp)
      cases rest with
      | nil =>
          simp only [List.nil_append, List.cons_append]
          rw [findClose]
          rw [if_neg (by simp [hc.1]), if_neg (by simp [hc.2])]
          rw [findClose]
          simp
      | cons c2 rest2 =>
          simp only [List.cons_append]
          rw [findClose]
          rw [if_neg (by simp [hc.1]), if_neg (by simp [hc.2])]
          have := ih (fun x hx => h x (by simp [hx]))
          simp only [List.cons_append] at this
          rw [this]
          simp

theorem renderAux_ph (data : JSValue) (p t2 : List Char)
    (h : ∀ c ∈ p, c ≠ '}' ∧ isLineTerm c = false) :
    renderAux data ('{' :: '{' :: (p ++ '}' :: '}' :: t2)) =
      replacePlaceholder data p ++ renderAux data t2 := by
  rw [renderAux]
  rw [if_pos (by simp)]
  rw [findClose_append p t2 h]

theorem findClose_sound :
    ∀ l pr, findClose l = some pr → l = pr.1 ++ '}' :: '}' :: pr.2 := by
  intro l
  induction l with
  | nil => intro pr h; simp [findClose] at h
  | cons c1 t ih =>
      cases t with
      | nil => intro pr h; simp [findClose] at h
      | cons c2 rest =>
          intro pr h
          simp only [findClose] at h
          by_cases h1 : (c1 == '}' && c2 == '}') = true
          · rw [if_pos h1] at h
            cases h
            simp at h1
            simp [h1.1, h1.2]
          · rw [if_neg h1] at h
            by_cases h2 : isLineTerm c1 = true
            · rw [if_pos h2] at h; cases h
            · rw [if_neg h2] at h
              cases hfc : findClose (c2 :: rest) with
              | none => rw [hfc] at h; cases h
              | some pr0 =>
                  rw [hfc] at h
                  cases h
                  have := ih pr0 hfc
                  simp [this]

theorem findClose_none_of_lineterm :
    ∀ p X, (∀ c ∈ p, c ≠ '}') → (∃ c ∈ p, isLineTerm c = true) →
      findClose (p ++ X) = none := by
  intro p
  induction p with
  | nil => intro X h hex; simp at hex
  | cons c p' ih =>
      intro X h hex
      have hc : c ≠ '}' := h c (by simp)
      cases he : p' ++ X with
      | nil => simp only [List.cons_append, he, findClose]
      | cons d rest3 =>
          simp only [List.cons_append, he, findClose]
          rw [if_neg (by simp [hc])]
          by_cases hlt : isLineTerm c = true
          · rw [if_pos hlt]
          · rw [if_neg hlt]
            have hex' : ∃ x ∈ p', isLineTerm x = true := by
              rcases hex with ⟨x, hx, hxl⟩
              rcases List.mem_cons.mp hx with hx' | hx'
              · exact absurd (hx' ▸ hxl) hlt
              · exact ⟨x, hx', hxl⟩
            have := ih X (fun x hx => h x (by simp [hx])) hex'
            rw [he] at this
            rw [this]
            rfl

theorem renderAux_cons2 (data : JSValue) (c1 c2 : Char) (l : List Char) (h : c2 ≠ '{') :
    renderAux data (c1 :: c2 :: l) = c1 :: renderAux data (c2 :: l) := by
  rw [renderAux]
  rw [if_neg]
  simp [h]

theorem tokenize_spec : ∀ (n : Nat) (D : JSValue) (t : List Char), t.length ≤ n →
    flattenToks (tokenize t) = t ∧ renderAux D t = renderToks D (tokenize t) := by
  intro n
  induction n with
  | zero =>
      intro D t h
      have ht : t = [] := List.eq_nil_of_length_eq_zero (Nat.le_zero.mp h)
      subst ht
      exact ⟨by simp [tokenize, flattenToks], by simp [tokenize, renderToks, renderAux_nil]⟩
  | succ n ih =>
      intro D t h
      match t with
      | [] =>
          exact ⟨by simp [tokenize, flattenToks], by simp [tokenize, renderToks, renderAux_nil]⟩
      | c :: [] =>
          constructor
          · simp [tokenize, flattenToks]
          · simp [tokenize, renderToks, renderAux]
      | c1 :: c2 :: rest =>
          by_cases hb : (c1 == '{' && c2 == '{') = true
          · cases hfc : findClose rest with
            | some pr =>
                have hsound := findClose_sound rest pr hfc
                have hlen := findClose_some_length rest pr hfc
                have hIH := ih D pr.2 (by simp at h; omega)
                have hc12 : c1 = '{' ∧ c2 = '{' := by simpa using hb
                constructor
                · rw [tokenize, if_pos hb, hfc, flattenToks, hIH.1]
                  rw [hc12.1, hc12.2, ← hsound]
                · have hred : renderAux D (c1 :: c2 :: rest) =
                      replacePlaceholder D pr.1 ++ renderAux D pr.2 := by
                    rw [renderAux, if_pos hb, hfc]
                  rw [tokenize, if_pos hb, hfc, renderToks, hred, hIH.2]
            | none =>
                have hIH := ih D (c2 :: rest) (by simp at h ⊢; omega)
                constructor
                · rw [tokenize, if_pos hb, hfc, flattenToks, hIH.1]
                · rw [tokenize, if_pos hb, hfc, renderToks]
                  rw [renderAux, if_pos hb, hfc, hIH.2]
          · have hIH := ih D (c2 :: rest) (by simp at h ⊢; omega)
            constructor
            · rw [tokenize, if_neg hb, flattenToks, hIH.1]
            · rw [tokenize, if_neg hb, renderToks]
              rw [renderAux, if_neg hb, hIH.2]

/-- Claim C5: for every data object and template, the scan decomposes
the template into literal characters and placeholder tokens whose
concatenation is exactly the template, and rendering replaces only the
placeholder tokens, leaving every literal character unchanged in its
relative order. -/
theorem claim_C5 : ∀ (D : JSValue) (t : List Char),
    flattenToks (tokenize t) = t ∧ renderAux D t = renderToks D (tokenize t) :=
  fun D t => tokenize_spec t.length D t (Nat.le_refl _)

/-- Claim C1: a placeholder whose path does not fully resolve (the
reduce of line 28-30 of src/index.js yields undefined, covering a
missing key at any depth, an out-of-range index and traversal into a
non-traversable value) is replaced by the empty string, and rendering
never throws (renderAux is a total function); stated both for the
replacer itself and for a placeholder token inside a template. -/
theorem claim_C1 :
    (∀ (D : JSValue) (p : List Char), isUndef (pathValue D p) = true →
      replacePlaceholder D p = []) ∧
    (∀ (D : JSValue) (t1 p t2 : List Char),
      (∀ c ∈ t1, c ≠ '{') → (∀ c ∈ p, c ≠ '}' ∧ isLineTerm c = false) →
      isUndef (pathValue D p) = true →
      renderAux D (t1 ++ '{' :: '{' :: (p ++ '}' :: '}' :: t2)) = t1 ++ renderAux D t2) := by
  constructor
  · intro D p h
    rw [replacePlaceholder, if_pos h]
  · intro D t1 p t2 h1 h2 h3
    rw [renderAux_append D t1 _ h1]
    rw [renderAux_ph D p t2 h2]
    rw [replacePlaceholder, if_pos h3]
    simp

def dataC1 : JSValue := .obj [("items", .arr [.str "x"])]

theorem claim_C1_witness :
    isUndef (pathValue dataC1 (("items[5]").data)) = true ∧
    renderAux dataC1 ((("Hi ").data) ++ '{' :: '{' :: ((("items[5]").data) ++ '}' :: '}' :: (("!").data))) =
      (("Hi ").data) ++ renderAux dataC1 (("!").data) :=
  ⟨by rfl, claim_C1.2 dataC1 (("Hi ").data) (("items[5]").data) (("!").data)
    (by decide) (by decide) (by rfl)⟩

/-- Claim C2 counterexample: with data binding a to null, the template
of a single placeholder for a renders to the literal text null, not to
the empty string. -/
theorem claim_C2_cex :
    renderAux (JSValue.obj [("a", JSValue.null)]) ('{' :: '{' :: 'a' :: '}' :: '}' :: []) = ("null").data ∧
    renderAux (JSValue.obj [("a", JSValue.null)]) ('{' :: '{' :: 'a' :: '}' :: '}' :: []) ≠ [] := by
  have h : renderAux (JSValue.obj [("a", JSValue.null)]) ('{' :: '{' :: (('a' :: []) ++ '}' :: '}' :: [])) =
      replacePlaceholder (JSValue.obj [("a", JSValue.null)]) ('a' :: []) ++
        renderAux (JSValue.obj [("a", JSValue.null)]) [] :=
    renderAux_ph _ _ _ (by decide)
  rw [renderAux_nil] at h
  simp only [List.cons_append, List.nil_append] at h
  rw [h]
  constructor
  · rfl
  · decide

/-- Claim C2 as amended: a placeholder path resolving to undefined is
replaced by the empty string (so no literal undefined text appears),
but a path resolving to null is replaced by the literal text null,
because the replacer of line 31 of src/index.js compares against
undefined only, with strict inequality, and String coerces null. -/
theorem claim_C2 :
    ∀ (D : JSValue) (p : List Char),
      (pathValue D p = JSValue.undefined → replacePlaceholder D p = []) ∧
      (pathValue D p = JSValue.null → replacePlaceholder D p = ("null").data) := by
  intro D p
  constructor
  · intro h
    rw [replacePlaceholder, h]
    rfl
  · intro h
    rw [replacePlaceholder, h]
    rfl

def dataC2 : JSValue := .obj [("a", .null)]

theorem claim_C2_witness :
    pathValue dataC2 ('a' :: []) = JSValue.null ∧
    replacePlaceholder dataC2 ('a' :: []) = ("null").data :=
  ⟨by rfl, (claim_C2 dataC2 ('a' :: [])).2 (by rfl)⟩

/-- Claim C10: a double-brace token whose interior contains a line
terminator is not recognized by the placeholder regex (the dot does not
match line terminators), so the whole token, braces included, stays
verbatim in the output for every data object. -/
theorem claim_C10 : ∀ (D : JSValue) (t1 p t2 : List Char),
    (∀ c ∈ t1, c ≠ '{') → (∀ c ∈ p, c ≠ '{' ∧ c ≠ '}') →
    (∃ c ∈ p, isLineTerm c = true) →
    renderAux D (t1 ++ '{' :: '{' :: (p ++ '}' :: '}' :: t2)) =
      t1 ++ '{' :: '{' :: (p ++ '}' :: '}' :: renderAux D t2) := by
  intro D t1 p t2 h1 h2 hex
  rw [renderAux_append D t1 _ h1]
  cases p with
  | nil => simp at hex
  | cons p0 p' =>
      have hfc : findClose ((p0 :: p') ++ '}' :: '}' :: t2) = none :=
        findClose_none_of_lineterm (p0 :: p') ('}' :: '}' :: t2)
          (fun c hc => (h2 c hc).2) hex
      rw [renderAux, if_pos (by simp), hfc]
      simp only [List.cons_append]
      rw [renderAux_cons2 D '{' p0 (p' ++ '}' :: '}' :: t2) (h2 p0 (by simp)).1]
      have hpass : renderAux D ((p0 :: p') ++ '}' :: '}' :: t2) =
          (p0 :: p') ++ renderAux D ('}' :: '}' :: t2) :=
        renderAux_append D (p0 :: p') ('}' :: '}' :: t2) (fun c hc => (h2 c hc).1)
      simp only [List.cons_append] at hpass
      rw [hpass]
      rw [renderAux_cons D '}' ('}' :: t2) (by decide)]
      rw [renderAux_cons D '}' t2 (by decide)]

def dataC10 : JSValue := .obj [("a", .obj [("b", .str "v")])]

theorem claim_C10_witness :
    (∀ c ∈ (("A ").data), c ≠ '{') ∧
    (∀ c ∈ ('a' :: '\n' :: 'b' :: []), c ≠ '{' ∧ c ≠ '}') ∧
    (∃ c ∈ ('a' :: '\n' :: 'b' :: []), isLineTerm c = true) ∧
    renderAux dataC10 ((("A ").data) ++ '{' :: '{' :: (('a' :: '\n' :: 'b' :: []) ++ '}' :: '}' :: (("B").data))) =
      (("A ").data) ++ '{' :: '{' :: (('a' :: '\n' :: 'b' :: []) ++ '}' :: '}' :: renderAux dataC10 (("B").data)) :=
  ⟨by decide, by decide, by decide,
    claim_C10 dataC10 (("A ").data) ('a' :: '\n' :: 'b' :: []) (("B").data)
      (by decide) (by decide) (by decide)⟩

/-! ### Strict and permissive resolution agree on defined word-dot paths -/

theorem spanP_all (q : Char → Bool) :
    ∀ (p : List Char) (x : Char) (r : List Char), (∀ c ∈ p, q c = true) → q x = false →
      spanP q (p ++ x :: r) = (p, x :: r) := by
  intro p
  induction p with
  | nil =>
      intro x r _ hx
      simp only [List.nil_append]
      rw [spanP, if_neg (by simp [hx])]
  | cons c p' ih =>
      intro x r h hx
      simp only [List.cons_append]
      rw [spanP, if_pos (h c (by simp))]
      rw [ih x r (fun d hd => h d (by simp [hd])) hx]

theorem wordDot_props (c : Char) (h : isWordDot c = true) :
    c ≠ '{' ∧ c ≠ '}' ∧ c ≠ '[' ∧ isLineTerm c = false ∧ isJSSpace c = false := by
  refine ⟨?_, ?_, ?_, ?_, ?_⟩
  · rintro rfl; exact absurd h (by decide)
  · rintro rfl; exact absurd h (by decide)
  · rintro rfl; exact absurd h (by decide)
  · by_contra hl
    simp only [Bool.not_eq_false] at hl
    simp only [isLineTerm, Bool.or_eq_true, beq_iff_eq] at hl
    rcases hl with ((h1 | h1) | h1) | h1 <;> subst h1 <;> exact absurd h (by decide)
  · by_contra hl
    simp only [Bool.not_eq_false] at hl
    simp only [isJSSpace, Bool.or_eq_true, beq_iff_eq] at hl
    rcases hl with ((((((h1 | h1) | h1) | h1) | h1) | h1) | h1) | h1 <;> subst h1 <;>
      exact absurd h (by decide)

theorem strict_cons (D : JSValue) (c : Char) (l : List Char) (h : c ≠ '{') :
    strictRenderAux D (c :: l) = (strictRenderAux D l).map (fun r => c :: r) := by
  cases l with
  | nil => simp [strictRenderAux]
  | cons c2 rest =>
      rw [strictRenderAux]
      rw [if_neg]
      simp [h]

theorem strict_ph (D : JSValue) (p t2 : List Char) (h : ∀ c ∈ p, isWordDot c = true) :
    strictRenderAux D ('{' :: '{' :: (p ++ '}' :: '}' :: t2)) =
      (strictReplace D p).bind (fun v => (strictRenderAux D t2).map (fun r => v ++ r)) := by
  have hsp : spanP isWordDot (p ++ '}' :: '}' :: t2) = (p, '}' :: '}' :: t2) :=
    spanP_all isWordDot p '}' ('}' :: t2) h (by decide)
  rw [strictRenderAux]
  rw [if_pos (by simp)]
  rw [hsp]
  rw [dif_pos (show List.take 2 ((p, '}' :: '}' :: t2) : List Char × List Char).2 = ('}' :: '}' :: []) from rfl)]
  rfl

theorem foldl_permStep_undefined :
    ∀ ks : List (List Char), List.foldl permStep JSValue.undefined ks = JSValue.undefined := by
  intro ks
  induction ks with
  | nil => rfl
  | cons k ks ih =>
      rw [List.foldl_cons]
      have : permStep JSValue.undefined k = JSValue.undefined := by
        rw [permStep, if_neg]
        simp [jsTruthy]
      rw [this, ih]

theorem truthy_not_nullish (v : JSValue) (h : jsTruthy v = true) :
    (isUndef v || isNull v) = false := by
  cases v <;> simp_all [jsTruthy, isUndef, isNull]

theorem perm_strict_foldl :
    ∀ (ks : List (List Char)) (v : JSValue),
      isUndef (List.foldl permStep v ks) = false →
      List.foldl
        (fun acc key => acc.bind (fun w =>
          if isUndef w || isNull w then none else some (jsIndex w key)))
        (some v) ks = some (List.foldl permStep v ks) := by
  intro ks
  induction ks with
  | nil => intro v _; simp
  | cons k ks ih =>
      intro v h
      have htr : jsTruthy v = true := by
        by_contra hf
        simp only [Bool.not_eq_true] at hf
        have hstep : permStep v k = JSValue.undefined := by
          rw [permStep, if_neg]
          simp [hf]
        rw [List.foldl_cons, hstep, foldl_permStep_undefined] at h
        exact absurd h (by simp [isUndef])
      have hix : isUndef (jsIndex v k) = false := by
        by_contra hf
        simp only [Bool.not_eq_false] at hf
        have hstep : permStep v k = JSValue.undefined := by
          rw [permStep, if_neg]
          simp [hf]
        rw [List.foldl_cons, hstep, foldl_permStep_undefined] at h
        exact absurd h (by simp [isUndef])
      have hstep : permStep v k = jsIndex v k := by
        rw [permStep, if_pos]
        simp [htr, hix]
      simp only [List.foldl_cons] at h ⊢
      rw [hstep] at h ⊢
      have hbind : (some v).bind (fun w =>
          if isUndef w || isNull w then none else some (jsIndex w k)) = some (jsIndex v k) := by
        show (if isUndef v || isNull v then none else some (jsIndex v k)) = some (jsIndex v k)
        rw [if_neg]
        simp [truthy_not_nullish v htr]
      rw [hbind]
      exact ih (jsIndex v k) h

theorem dropWhile_all (q : Char → Bool) :
    ∀ l : List Char, (∀ c ∈ l, q c = false) → l.dropWhile q = l := by
  intro l
  induction l with
  | nil => simp
  | cons c rest ih =>
      intro h
      rw [List.dropWhile_cons, if_neg (by simp [h c (by simp)])]

theorem trim_id (p : List Char) (h : ∀ c ∈ p, isJSSpace c = false) : trimJS p = p := by
  rw [trimJS]
  rw [dropWhile_all isJSSpace p h]
  rw [dropWhile_all isJSSpace p.reverse (fun c hc => h c (List.mem_reverse.mp hc))]
  simp

theorem normBrackets_id (p : List Char) (h : ∀ c ∈ p, c ≠ '[') : normBrackets p = p := by
  rw [normBrackets]
  induction p with
  | nil => rfl
  | cons c rest ih =>
      rw [normBAux, if_neg (by simp [h c (by simp)])]
      rw [ih (fun d hd => h d (by simp [hd]))]

theorem cleanPath_id (p : List Char) (h : ∀ c ∈ p, isWordDot c = true) : cleanPathOf p = p := by
  rw [cleanPathOf]
  rw [trim_id p (fun c hc => (wordDot_props c (h c hc)).2.2.2.2)]
  rw [normBrackets_id p (fun c hc => (wordDot_props c (h c hc)).2.2.1)]

/-- One token is well formed for the strict regex: a literal character
is no brace, a placeholder interior consists of word or dot
characters. -/
def tokWordDotb : Tok → Bool
  | .lit c => !(c == '{') && !(c == '}')
  | .ph p => p.all isWordDot

/-- All tokens of a template are well formed for the strict regex. -/
def toksWordDotb : List Tok → Bool
  | [] => true
  | tok :: ts => tokWordDotb tok && toksWordDotb ts

/-- Every placeholder path of the template resolves to a defined value
under the resolver of the spec (section 4.1): resolution succeeds,
yielding a value other than undefined. -/
def toksResolvedb (D : JSValue) : List Tok → Bool
  | [] => true
  | .lit _ :: ts => toksResolvedb D ts
  | .ph p :: ts => !(isUndef (pathValue D p)) && toksResolvedb D ts

/-- Claim C4: the permissive resolver subsumes the strict one.  For a
template decomposing into brace-free literal characters and word-dot
placeholder paths, each resolving to a defined value, the strict render
succeeds and produces exactly the permissive output; and the template
of the single placeholder a.b over the empty object is handled by the
permissive render (empty string, no throw) while the strict render
throws. -/
theorem claim_C4 :
    (∀ (D : JSValue) (ts : List Tok), toksWordDotb ts = true → toksResolvedb D ts = true →
      strictRenderAux D (flattenToks ts) = some (renderAux D (flattenToks ts))) ∧
    (strictRenderAux (JSValue.obj []) ('{' :: '{' :: 'a' :: '.' :: 'b' :: '}' :: '}' :: []) = none ∧
     renderAux (JSValue.obj []) ('{' :: '{' :: 'a' :: '.' :: 'b' :: '}' :: '}' :: []) = []) := by
  constructor
  · intro D ts
    induction ts with
    | nil =>
        intro _ _
        rw [flattenToks, renderAux_nil]
        simp [strictRenderAux]
    | cons tok ts ih =>
        intro h1 h2
        simp only [toksWordDotb, Bool.and_eq_true] at h1
        cases tok with
        | lit c =>
            simp only [toksResolvedb] at h2
            have hc : c ≠ '{' := by
              have := h1.1
              simp [tokWordDotb] at this
              exact this.1
            rw [flattenToks]
            rw [strict_cons D c _ hc]
            rw [ih h1.2 h2]
            rw [renderAux_cons D c _ hc]
            rfl
        | ph p =>
            simp only [toksResolvedb, Bool.and_eq_true] at h2
            have hwd : ∀ c ∈ p, isWordDot c = true := by
              have := h1.1
              simpa [tokWordDotb, List.all_eq_true] using this
            have hres : isUndef (pathValue D p) = false := by
              have := h2.1
              simpa using this
            rw [flattenToks]
            rw [strict_ph D p _ hwd]
            rw [renderAux_ph D p _ (fun c hc =>
              ⟨(wordDot_props c (hwd c hc)).2.1, (wordDot_props c (hwd c hc)).2.2.2.1⟩)]
            have hclean : cleanPathOf p = p := cleanPath_id p hwd
            have hpv : pathValue D p = List.foldl permStep D (splitOnDot p) := by
              rw [pathValue, hclean]
            have hsr : strictResolve D (splitOnDot p) =
                some (List.foldl permStep D (splitOnDot p)) := by
              rw [strictResolve]
              exact perm_strict_foldl (splitOnDot p) D (by rw [← hpv]; exact hres)
            have hrep : strictReplace D p = some (jsToString (pathValue D p)) := by
              rw [strictReplace, hsr, hpv]
              rfl
            have hrp : replacePlaceholder D p = jsToString (pathValue D p) := by
              rw [replacePlaceholder, if_neg]
              simp [hres]
            rw [hrep, ih h1.2 h2.2, hrp]
            rfl
  · constructor
    · show strictRenderAux (JSValue.obj [])
        ('{' :: '{' :: (('a' :: '.' :: 'b' :: []) ++ '}' :: '}' :: [])) = none
      rw [strict_ph _ _ _ (by decide)]
      rfl
    · show renderAux (JSValue.obj [])
        ('{' :: '{' :: (('a' :: '.' :: 'b' :: []) ++ '}' :: '}' :: [])) = []
      rw [renderAux_ph _ _ _ (by decide), renderAux_nil]
      rfl

def dataC4 : JSValue := .obj [("a", .obj [("b", .str "v")])]

def toksC4 : List Tok := Tok.lit 'X' :: Tok.ph ('a' :: '.' :: 'b' :: []) :: []

theorem claim_C4_witness :
    toksWordDotb toksC4 = true ∧ toksResolvedb dataC4 toksC4 = true ∧
    strictRenderAux dataC4 (flattenToks toksC4) = some (renderAux dataC4 (flattenToks toksC4)) :=
  ⟨by rfl, by rfl, claim_C4.1 dataC4 toksC4 (by rfl) (by rfl)⟩

/-- Claim C6: render is deterministic and idempotent under repetition:
it is a pure function of the template and data (the code reads no
state besides its arguments), so calls with equal inputs give
byte-identical outputs, and any number of repeated calls all agree. -/
theorem claim_C6 :
    ∀ (d1 d2 : JSValue) (t1 t2 : String), d1 = d2 → t1 = t2 →
      renderString d1 t1 = renderString d2 t2 ∧
      ∀ n : Nat, (List.replicate n (renderString d1 t1)).all
        (fun s => s == renderString d2 t2) = true := by
  intro d1 d2 t1 t2 hd ht
  subst hd
  subst ht
  refine ⟨rfl, ?_⟩
  intro n
  induction n with
  | zero => rfl
  | succ n ih => simp [List.replicate_succ, ih]

theorem claim_C6_witness :
    renderString (JSValue.obj []) ("x") = renderString (JSValue.obj []) ("x") :=
  (claim_C6 (JSValue.obj []) (JSValue.obj []) ("x") ("x") rfl rfl).1

/-- Claim C7: a section renderer with an absent container, or whose
section key is missing from the data object, returns with the
container content unchanged and no error, shown for renderHeader
(key nav) and renderExperience (key experience_section). -/
theorem claim_C7 :
    ∀ (c t : List Char) (D : JSValue),
      renderHeader none t D = Except.ok none ∧
      (jsIndex D (("nav").data) = JSValue.undefined →
        renderHeader (some c) t D = Except.ok (some c)) ∧
      renderExperience none t D = Except.ok none ∧
      (jsIndex D (("experience_section").data) = JSValue.undefined →
        renderExperience (some c) t D = Except.ok (some c)) := by
  intro c t D
  refine ⟨rfl, ?_, rfl, ?_⟩
  · intro h
    simp only [renderHeader]
    rw [h]
    rfl
  · intro h
    simp only [renderExperience]
    rw [h]
    rfl

def dataC7 : JSValue := .obj [("x", .num 1)]

theorem claim_C7_witness :
    renderHeader none (("T").data) dataC7 = Except.ok none ∧
    jsIndex dataC7 (("nav").data) = JSValue.undefined ∧
    renderHeader (some (("C").data)) (("T").data) dataC7 = Except.ok (some (("C").data)) ∧
    renderExperience none (("T").data) dataC7 = Except.ok none ∧
    jsIndex dataC7 (("experience_section").data) = JSValue.undefined ∧
    renderExperience (some (("C").data)) (("T").data) dataC7 = Except.ok (some (("C").data)) :=
  ⟨(claim_C7 (("C").data) (("T").data) dataC7).1, by rfl,
   (claim_C7 (("C").data) (("T").data) dataC7).2.1 (by rfl),
   (claim_C7 (("C").data) (("T").data) dataC7).2.2.1, by rfl,
   (claim_C7 (("C").data) (("T").data) dataC7).2.2.2 (by rfl)⟩

/-- Claim C9: below the 1024 pixel threshold a click changes no
overlay state; at or above it, a click on a zoomable image whose
overlay is found shows that overlay, and a following click on the
overlay's close control hides it again. -/
theorem claim_C9 :
    ∀ (w : Nat) (t : ClickTarget) (st : Nat → Bool) (i : Nat),
      (w < 1024 → handleClick w t st = st) ∧
      (1024 ≤ w →
        handleClick w (ClickTarget.mk true false false (some i) none none) st i = true) ∧
      (1024 ≤ w →
        handleClick w (ClickTarget.mk false true false none (some i) none)
          (handleClick w (ClickTarget.mk true false false (some i) none none) st) i = false) := by
  intro w t st i
  refine ⟨?_, ?_, ?_⟩
  · intro h
    have hn : ¬ 1024 ≤ w := by omega
    simp [handleClick, isSmallScreen, hn]
  · intro h
    simp [handleClick, isSmallScreen, h, setDisplay]
  · intro h
    simp [handleClick, isSmallScreen, h, setDisplay]

theorem claim_C9_witness :
    (800 < 1024 ∧
      handleClick 800 (ClickTarget.mk true false false (some 0) none none) (fun _ => false) =
        (fun _ => false)) ∧
    (handleClick 1024 (ClickTarget.mk true false false (some 0) none none) (fun _ => false) 0 =
      true) ∧
    (handleClick 1024 (ClickTarget.mk false true false none (some 0) none)
      (handleClick 1024 (ClickTarget.mk true false false (some 0) none none) (fun _ => false)) 0 =
      false) :=
  ⟨⟨by decide,
    (claim_C9 800 (ClickTarget.mk true false false (some 0) none none) (fun _ => false) 0).1
      (by decide)⟩,
   (claim_C9 1024 (ClickTarget.mk true false false (some 0) none none) (fun _ => false) 0).2.1
     (by decide),
   (claim_C9 1024 (ClickTarget.mk true false false (some 0) none none) (fun _ => false) 0).2.2
     (by decide)⟩

theorem mapBlocks_append :
    ∀ xs ys : List JSValue, mapBlocks (xs ++ ys) =
      (mapBlocks xs).bind (fun as => (mapBlocks ys).map (fun bs => as ++ bs)) := by
  intro xs ys
  induction xs with
  | nil =>
      cases h : mapBlocks ys <;> simp [mapBlocks, h]
  | cons s xs ih =>
      simp only [List.cons_append, mapBlocks, List.append_eq]
      rw [ih]
      cases hs : skillBlock s <;>
        cases hx : mapBlocks xs <;>
          cases hy : mapBlocks ys <;>
            simp [hs, hx, hy]

theorem foldr_concat_init :
    ∀ (as : List (List Char)) (Z : List Char),
      as.foldr (· ++ ·) Z = as.foldr (· ++ ·) [] ++ Z := by
  intro as
  induction as with
  | nil => intro Z; simp
  | cons a as ih =>
      intro Z
      simp only [List.foldr_cons]
      rw [ih Z, List.append_assoc]

theorem headMatches_self : ∀ pat suf : List Char, headMatches pat (pat ++ suf) = true := by
  intro pat
  induction pat with
  | nil => intro suf; rfl
  | cons p ps ih =>
      intro suf
      rw [List.cons_append, headMatches]
      simp [ih]

theorem replaceFirst_at :
    ∀ pat rep suf : List Char, replaceFirstStr pat rep (pat ++ suf) = rep ++ suf := by
  intro pat rep suf
  cases pat with
  | nil =>
      cases suf with
      | nil => simp [replaceFirstStr]
      | cons c rest =>
          rw [List.nil_append, replaceFirstStr]
          rw [if_pos (show headMatches [] (c :: rest) = true from rfl)]
          simp
  | cons p ps =>
      simp only [List.cons_append]
      rw [replaceFirstStr]
      rw [if_pos (show headMatches (p :: ps) (p :: (ps ++ suf)) = true from
        headMatches_self (p :: ps) suf)]
      simp only [List.length_cons, List.drop_succ_cons]
      rw [List.drop_left]

theorem replaceFirst_skip :
    ∀ (pat rep pre suf : List Char),
      (∀ i, i < pre.length → headMatches pat (pre.drop i ++ suf) = false) →
      replaceFirstStr pat rep (pre ++ suf) = pre ++ replaceFirstStr pat rep suf := by
  intro pat rep pre
  induction pre with
  | nil => intro suf _; simp
  | cons c pre' ih =>
      intro suf h
      have h0 : headMatches pat (c :: (pre' ++ suf)) = false := by
        have := h 0 (by simp)
        simpa using this
      simp only [List.cons_append]
      rw [replaceFirstStr, if_neg (by simp [h0])]
      rw [ih suf (fun i hi => by
        have := h (i + 1) (by simp; omega)
        simpa using this)]

theorem skills_two (a b : JSValue) (ba bb : List Char)
    (ha : skillBlock a = some ba) (hb : skillBlock b = some bb) :
    skillsHtmlOf (a :: b :: []) = some (ba ++ bb) := by
  simp [skillsHtmlOf, mapBlocks, ha, hb]

theorem renderSkills_run (content template : List Char) (data : JSValue)
    (skills : List JSValue) (sh : List Char) (certs : List JSValue)
    (h1 : jsTruthy (jsIndex data (("skills_section").data)) = true)
    (h2 : asArr (jsIndex (jsIndex data (("skills_section").data)) (("skills").data)) = some skills)
    (h3 : skillsHtmlOf skills = some sh)
    (h4 : asArr (jsIndex (jsIndex (jsIndex data (("skills_section").data))
      (("certificates").data)) (("items").data)) = some certs) :
    renderSkills (some content) template data = Except.ok (some (
      replaceFirstStr (("id=\"certificates-list\">").data)
        ((("id=\"certificates-list\">").data) ++ (certs.map certBlock).foldr (· ++ ·) [])
        (replaceFirstStr (("id=\"skills-list\">").data)
          ((("id=\"skills-list\">").data) ++ sh)
          (renderAux data template)))) := by
  simp only [renderSkills]
  rw [if_neg (by simp [h1])]
  split
  · rename_i heq
    rw [h2] at heq
    cases heq
  · rename_i skills' heq
    rw [h2] at heq
    injection heq with e
    subst e
    split
    · rename_i heq3
      rw [h3] at heq3
      cases heq3
    · rename_i sh' heq3
      rw [h3] at heq3
      injection heq3 with e3
      subst e3
      split
      · rename_i heq4
        rw [h4] at heq4
        cases heq4
      · rename_i certs' heq4
        rw [h4] at heq4
        injection heq4 with e4
        subst e4
        rfl

def skillA : JSValue :=
  .obj [("name", .str "A"), ("info", .str "i1"), ("items", .arr [.str "x"])]

def skillB : JSValue :=
  .obj [("name", .str "B"), ("info", .str "i2"), ("items", .arr [.str "y", .str "z"])]

def dataC8 : JSValue :=
  .obj [("skills_section", .obj
    [("skills", .arr [skillA, skillB]),
     ("certificates", .obj [("items", .arr [])])])]

def tmplC8 : List Char :=
  ("<ul id=\"certificates-list\"></ul><ul id=\"skills-list\"></ul>").data

/-- Claim C8: the skills map-then-concatenate preserves input sequence
order (it is a homomorphism on list append); on the two-skill document
of the claim the generated markup is exactly the block of A followed by
the block of B, the second block holding exactly the two list items for
y and z in order; and the full renderSkills call splices precisely
these two blocks, in order, at the skills-list marker of the
template. -/
theorem claim_C8 :
    (∀ xs ys : List JSValue, skillsHtmlOf (xs ++ ys) =
      (skillsHtmlOf xs).bind (fun a => (skillsHtmlOf ys).map (fun b => a ++ b))) ∧
    skillsHtmlOf (skillA :: skillB :: []) =
      (skillBlock skillA).bind (fun a => (skillBlock skillB).map (fun b => a ++ b)) ∧
    ((JSValue.str "y" :: JSValue.str "z" :: []).map liItem).foldr (· ++ ·) [] =
      ("<li>y</li><li>z</li>").data ∧
    renderSkills (some []) tmplC8 dataC8 =
      Except.ok (some ((("<ul id=\"certificates-list\"></ul><ul id=\"skills-list\">").data) ++
        ((skillBlock skillA).getD [] ++ ((skillBlock skillB).getD [] ++ (("</ul>").data))))) := by
  refine ⟨?_, ?_, ?_, ?_⟩
  · intro xs ys
    simp only [skillsHtmlOf]
    rw [mapBlocks_append]
    cases hx : mapBlocks xs <;> cases hy : mapBlocks ys <;> simp [hx, hy]
    exact foldr_concat_init _ _
  · simp only [skillsHtmlOf, mapBlocks]
    cases hA : skillBlock skillA <;> cases hB : skillBlock skillB <;> simp [hA, hB]
  · rfl
  · obtain ⟨ba, hA⟩ : ∃ ba, skillBlock skillA = some ba := ⟨_, rfl⟩
    obtain ⟨bb, hB⟩ : ∃ bb, skillBlock skillB = some bb := ⟨_, rfl⟩
    have hskills : skillsHtmlOf (skillA :: skillB :: []) = some (ba ++ bb) :=
      skills_two skillA skillB ba bb hA hB
    have hT : renderAux dataC8 tmplC8 = tmplC8 := by
      have h := renderAux_append dataC8 tmplC8 [] (by decide)
      rw [renderAux_nil] at h
      simpa using h
    have hrun := renderSkills_run [] tmplC8 dataC8 (skillA :: skillB :: []) (ba ++ bb) []
      (by rfl) (by rfl) hskills (by rfl)
    rw [hrun, hT]
    have hrep1 : replaceFirstStr (("id=\"skills-list\">").data)
        ((("id=\"skills-list\">").data) ++ (ba ++ bb)) tmplC8 =
        (("<ul id=\"certificates-list\"></ul><ul ").data) ++
          (((("id=\"skills-list\">").data) ++ (ba ++ bb)) ++ (("</ul>").data)) := by
      rw [show tmplC8 = (("<ul id=\"certificates-list\"></ul><ul ").data) ++
        ((("id=\"skills-list\">").data) ++ (("</ul>").data)) from rfl]
      rw [replaceFirst_skip (("id=\"skills-list\">").data)
        ((("id=\"skills-list\">").data) ++ (ba ++ bb))
        (("<ul id=\"certificates-list\"></ul><ul ").data)
        ((("id=\"skills-list\">").data) ++ (("</ul>").data)) (by decide)]
      rw [replaceFirst_at]
    rw [hrep1]
    have hshape : (("<ul id=\"certificates-list\"></ul><ul ").data) ++
        (((("id=\"skills-list\">").data) ++ (ba ++ bb)) ++ (("</ul>").data)) =
        ('<' :: 'u' :: 'l' :: ' ' :: []) ++ ((("id=\"certificates-list\">").data) ++
          ((("</ul><ul ").data) ++ (((("id=\"skills-list\">").data) ++ (ba ++ bb)) ++
            (("</ul>").data)))) := by
      rw [show (("<ul id=\"certificates-list\"></ul><ul ").data) =
        ('<' :: 'u' :: 'l' :: ' ' :: []) ++ ((("id=\"certificates-list\">").data) ++
          (("</ul><ul ").data)) from rfl]
      simp [List.append_assoc]
    rw [hshape]
    rw [replaceFirst_skip (("id=\"certificates-list\">").data)
      ((("id=\"certificates-list\">").data) ++
        (List.map certBlock ([] : List JSValue)).foldr (· ++ ·) [])
      ('<' :: 'u' :: 'l' :: ' ' :: [])
      ((("id=\"certificates-list\">").data) ++
        ((("</ul><ul ").data) ++ (((("id=\"skills-list\">").data) ++ (ba ++ bb)) ++
          (("</ul>").data))))
      (by
        intro i hi
        have h4 : i = 0 ∨ i = 1 ∨ i = 2 ∨ i = 3 := by
          simp only [List.length_cons, List.length_nil] at hi
          omega
        rcases h4 with rfl | rfl | rfl | rfl <;> rfl)]
    rw [replaceFirst_at]
    rw [hA, hB]
    simp only [Option.getD_some]
    simp [List.append_assoc]

/-! ### The bracket-to-dot normalization maps a bracketed index to its
dotted equivalent -/

theorem spanP_fst_append_snd (p : Char → Bool) :
    ∀ l : List Char, (spanP p l).1 ++ (spanP p l).2 = l := by
  intro l
  induction l with
  | nil => rfl
  | cons c cs ih =>
      rw [spanP]
      by_cases hp : p c = true
      · rw [if_pos hp]
        simp only [List.cons_append]
        rw [ih]
      · rw [if_neg hp]
        rfl

theorem spanP_fst_all (p : Char → Bool) :
    ∀ l c, c ∈ (spanP p l).1 → p c = true := by
  intro l
  induction l with
  | nil => intro c hc; simp [spanP] at hc
  | cons d cs ih =>
      intro c hc
      rw [spanP] at hc
      by_cases hp : p d = true
      · rw [if_pos hp] at hc
        rcases List.mem_cons.mp hc with h | h
        · exact h ▸ hp
        · exact ih c h
      · rw [if_neg hp] at hc
        simp at hc

theorem spanP_append_sat (p : Char → Bool) :
    ∀ (A : List Char) (d1 : List Char), spanP p A = (d1, []) →
      ∀ X, spanP p (A ++ X) = (d1 ++ (spanP p X).1, (spanP p X).2) := by
  intro A
  induction A with
  | nil =>
      intro d1 h X
      rw [spanP] at h
      cases h
      simp [spanP]
  | cons c A' ih =>
      intro d1 h X
      rw [spanP] at h
      by_cases hp : p c = true
      · rw [if_pos hp] at h
        have h1 : (spanP p A').1.cons c = d1 := congrArg Prod.fst h
        have h2 : (spanP p A').2 = [] := congrArg Prod.snd h
        have hA' : spanP p A' = ((spanP p A').1, []) := by
          rw [← h2]
        simp only [List.cons_append]
        rw [spanP, if_pos hp]
        rw [ih (spanP p A').1 hA' X]
        rw [← h1]
        simp
      · rw [if_neg hp] at h
        have h2 : (c :: A' : List Char) = [] := congrArg Prod.snd h
        cases h2

theorem spanP_append_stop (p : Char → Bool) :
    ∀ (A : List Char) (d1 : List Char) (y : Char) (r : List Char),
      spanP p A = (d1, y :: r) →
      ∀ X, spanP p (A ++ X) = (d1, y :: (r ++ X)) := by
  intro A
  induction A with
  | nil =>
      intro d1 y r h X
      rw [spanP] at h
      cases h
  | cons c A' ih =>
      intro d1 y r h X
      rw [spanP] at h
      by_cases hp : p c = true
      · rw [if_pos hp] at h
        have h1 : (spanP p A').1.cons c = d1 := congrArg Prod.fst h
        have h2 : (spanP p A').2 = y :: r := congrArg Prod.snd h
        have hA' : spanP p A' = ((spanP p A').1, y :: r) := by
          rw [← h2]
        simp only [List.cons_append]
        rw [spanP, if_pos hp]
        rw [ih (spanP p A').1 y r hA' X]
        rw [← h1]
      · rw [if_neg hp] at h
        have h1 : ([] : List Char) = d1 := congrArg Prod.fst h
        have h2 : (c :: A' : List Char) = y :: r := congrArg Prod.snd h
        injection h2 with hy hr
        subst hy
        subst hr
        subst h1
        simp only [List.cons_append]
        rw [spanP, if_neg hp]

theorem spanP_all_sat (p : Char → Bool) :
    ∀ l, (∀ c ∈ l, p c = true) → spanP p l = (l, []) := by
  intro l
  induction l with
  | nil => intro _; rfl
  | cons c cs ih =>
      intro h
      rw [spanP, if_pos (h c (by simp))]
      rw [ih (fun d hd => h d (by simp [hd]))]

theorem digit_ne_lbracket (c : Char) (h : c.isDigit = true) : c ≠ '[' := by
  rintro rfl
  exact absurd h (by decide)

theorem digit_ne_rbracket (c : Char) (h : c.isDigit = true) : c ≠ ']' := by
  rintro rfl
  exact absurd h (by decide)

theorem digit_not_space (c : Char) (h : c.isDigit = true) : isJSSpace c = false := by
  by_contra hl
  simp only [Bool.not_eq_false] at hl
  simp only [isJSSpace, Bool.or_eq_true, beq_iff_eq] at hl
  rcases hl with ((((((h1 | h1) | h1) | h1) | h1) | h1) | h1) | h1 <;> subst h1 <;>
    exact absurd h (by decide)

theorem normB_pass_false :
    ∀ (ds X : List Char), (∀ c ∈ ds, c ≠ '[') →
      normBAux false (ds ++ X) = ds ++ normBAux false X := by
  intro ds
  induction ds with
  | nil => intro X _; simp
  | cons c ds' ih =>
      intro X h
      simp only [List.cons_append]
      rw [normBAux, if_neg (by simp [h c (by simp)])]
      rw [ih X (fun d hd => h d (by simp [hd]))]

theorem normB_pass_true :
    ∀ (ds X : List Char), (∀ c ∈ ds, c ≠ ']') →
      normBAux true (ds ++ ']' :: X) = ds ++ normBAux false X := by
  intro ds
  induction ds with
  | nil =>
      intro X _
      simp only [List.nil_append]
      rw [normBAux, if_pos (by decide)]
  | cons c ds' ih =>
      intro X h
      simp only [List.cons_append]
      rw [normBAux, if_neg (by simp [h c (by simp)])]
      rw [ih X (fun d hd => h d (by simp [hd]))]

theorem normB_ins_nil (ds b : List Char) (hne : ds ≠ [])
    (hdig : ∀ c ∈ ds, c.isDigit = true) :
    normBAux false ('[' :: (ds ++ ']' :: b)) = normBAux false ('.' :: (ds ++ b)) := by
  have hsp : spanP Char.isDigit (ds ++ ']' :: b) = (ds, ']' :: b) :=
    spanP_all Char.isDigit ds ']' b hdig (by decide)
  rw [normBAux, if_pos (show (('[' : Char) == '[') = true from rfl)]
  rw [hsp]
  rw [if_pos (by simp [hne])]
  rw [normB_pass_true ds b (fun c hc => digit_ne_rbracket c (hdig c hc))]
  rw [normBAux, if_neg (by decide)]
  rw [normB_pass_false ds b (fun c hc => digit_ne_lbracket c (hdig c hc))]

theorem normB_ins : ∀ (n : Nat) (a ds b : List Char), a.length ≤ n → ds ≠ [] →
    (∀ c ∈ ds, c.isDigit = true) →
    normBAux false (a ++ '[' :: (ds ++ ']' :: b)) =
      normBAux false (a ++ '.' :: (ds ++ b)) := by
  intro n
  induction n with
  | zero =>
      intro a ds b ha hne hdig
      have h0 : a = [] := List.eq_nil_of_length_eq_zero (Nat.le_zero.mp ha)
      subst h0
      simpa using normB_ins_nil ds b hne hdig
  | succ n ih =>
      intro a ds b ha hne hdig
      match a with
      | [] => simpa using normB_ins_nil ds b hne hdig
      | c :: a' =>
          have ha' : a'.length ≤ n := by
            simp only [List.length_cons] at ha
            omega
          by_cases hc : c = '['
          · subst hc
            simp only [List.cons_append]
            cases hsp0 : spanP Char.isDigit a' with
            | mk d1 r1 =>
              cases r1 with
              | nil =>
                  have hsp1 : spanP Char.isDigit (a' ++ '[' :: (ds ++ ']' :: b)) =
                      (d1, '[' :: (ds ++ ']' :: b)) := by
                    rw [spanP_append_sat Char.isDigit a' d1 hsp0 ('[' :: (ds ++ ']' :: b))]
                    rw [show spanP Char.isDigit ('[' :: (ds ++ ']' :: b)) =
                      ([], '[' :: (ds ++ ']' :: b)) from by rw [spanP, if_neg (by decide)]]
                    simp
                  have hsp2 : spanP Char.isDigit (a' ++ '.' :: (ds ++ b)) =
                      (d1, '.' :: (ds ++ b)) := by
                    rw [spanP_append_sat Char.isDigit a' d1 hsp0 ('.' :: (ds ++ b))]
                    rw [show spanP Char.isDigit ('.' :: (ds ++ b)) =
                      ([], '.' :: (ds ++ b)) from by rw [spanP, if_neg (by decide)]]
                    simp
                  have hL : normBAux false ('[' :: (a' ++ '[' :: (ds ++ ']' :: b))) =
                      '[' :: normBAux false (a' ++ '[' :: (ds ++ ']' :: b)) := by
                    rw [normBAux, if_pos (show (('[' : Char) == '[') = true from rfl)]
                    rw [hsp1]
                    rw [if_neg (by simp)]
                  have hR : normBAux false ('[' :: (a' ++ '.' :: (ds ++ b))) =
                      '[' :: normBAux false (a' ++ '.' :: (ds ++ b)) := by
                    rw [normBAux, if_pos (show (('[' : Char) == '[') = true from rfl)]
                    rw [hsp2]
                    rw [if_neg (by simp)]
                  rw [hL, hR, ih a' ds b ha' hne hdig]
              | cons y r2 =>
                  have haeq : a' = d1 ++ ']' :: r2 ∨ y ≠ ']' ∨ d1 = [] := by
                    by_cases hy : y = ']'
                    · subst hy
                      left
                      have := spanP_fst_append_snd Char.isDigit a'
                      rw [hsp0] at this
                      exact this.symm
                    · right; left; exact hy
                  by_cases hcond : d1 ≠ [] ∧ y = ']'
                  · obtain ⟨hd1, hy⟩ := hcond
                    subst hy
                    have haeq2 : a' = d1 ++ ']' :: r2 := by
                      have := spanP_fst_append_snd Char.isDigit a'
                      rw [hsp0] at this
                      exact this.symm
                    have hd1dig : ∀ x ∈ d1, x.isDigit = true := by
                      intro x hx
                      have := spanP_fst_all Char.isDigit a' x
                      rw [hsp0] at this
                      exact this hx
                    have hsp1 := spanP_append_stop Char.isDigit a' d1 ']' r2 hsp0
                      ('[' :: (ds ++ ']' :: b))
                    have hsp2 := spanP_append_stop Char.isDigit a' d1 ']' r2 hsp0
                      ('.' :: (ds ++ b))
                    have hL : normBAux false ('[' :: (a' ++ '[' :: (ds ++ ']' :: b))) =
                        '.' :: (d1 ++ normBAux false (r2 ++ '[' :: (ds ++ ']' :: b))) := by
                      rw [normBAux, if_pos (show (('[' : Char) == '[') = true from rfl)]
                      rw [hsp1]
                      rw [if_pos (by simp [hd1])]
                      rw [show a' ++ '[' :: (ds ++ ']' :: b) =
                        d1 ++ ']' :: (r2 ++ '[' :: (ds ++ ']' :: b)) from by
                          rw [haeq2]; simp]
                      rw [normB_pass_true d1 _ (fun x hx => digit_ne_rbracket x (hd1dig x hx))]
                    have hR : normBAux false ('[' :: (a' ++ '.' :: (ds ++ b))) =
                        '.' :: (d1 ++ normBAux false (r2 ++ '.' :: (ds ++ b))) := by
                      rw [normBAux, if_pos (show (('[' : Char) == '[') = true from rfl)]
                      rw [hsp2]
                      rw [if_pos (by simp [hd1])]
                      rw [show a' ++ '.' :: (ds ++ b) =
                        d1 ++ ']' :: (r2 ++ '.' :: (ds ++ b)) from by
                          rw [haeq2]; simp]
                      rw [normB_pass_true d1 _ (fun x hx => digit_ne_rbracket x (hd1dig x hx))]
                    have hr2 : r2.length ≤ n := by
                      have : a'.length = d1.length + (r2.length + 1) := by
                        rw [haeq2]; simp
                      omega
                    rw [hL, hR, ih r2 ds b hr2 hne hdig]
                  · have hcond' : (!d1.isEmpty && (y == ']')) = false := by
                      by_cases h1 : d1 = []
                      · simp [h1]
                      · have h2 : y ≠ ']' := fun hy => hcond ⟨h1, hy⟩
                        simp [h2]
                    have hsp1 := spanP_append_stop Char.isDigit a' d1 y r2 hsp0
                      ('[' :: (ds ++ ']' :: b))
                    have hsp2 := spanP_append_stop Char.isDigit a' d1 y r2 hsp0
                      ('.' :: (ds ++ b))
                    have hL : normBAux false ('[' :: (a' ++ '[' :: (ds ++ ']' :: b))) =
                        '[' :: normBAux false (a' ++ '[' :: (ds ++ ']' :: b)) := by
                      rw [normBAux, if_pos (show (('[' : Char) == '[') = true from rfl)]
                      rw [hsp1]
                      rw [if_neg (by simp only [List.headD_cons]; simp [hcond'])]
                    have hR : normBAux false ('[' :: (a' ++ '.' :: (ds ++ b))) =
                        '[' :: normBAux false (a' ++ '.' :: (ds ++ b)) := by
                      rw [normBAux, if_pos (show (('[' : Char) == '[') = true from rfl)]
                      rw [hsp2]
                      rw [if_neg (by simp only [List.headD_cons]; simp [hcond'])]
                    rw [hL, hR, ih a' ds b ha' hne hdig]
          · simp only [List.cons_append]
            have hL : normBAux false (c :: (a' ++ '[' :: (ds ++ ']' :: b))) =
                c :: normBAux false (a' ++ '[' :: (ds ++ ']' :: b)) := by
              rw [normBAux, if_neg (by simp [hc])]
            have hR : normBAux false (c :: (a' ++ '.' :: (ds ++ b))) =
                c :: normBAux false (a' ++ '.' :: (ds ++ b)) := by
              rw [normBAux, if_neg (by simp [hc])]
            rw [hL, hR, ih a' ds b ha' hne hdig]

theorem dropWhile_mid (p : Char → Bool) :
    ∀ (pre X : List Char) (m : Char), p m = false →
      (pre ++ m :: X).dropWhile p = pre.dropWhile p ++ m :: X := by
  intro pre
  induction pre with
  | nil =>
      intro X m hm
      simp only [List.nil_append]
      rw [List.dropWhile_cons, if_neg (by simp [hm])]
      simp
  | cons c pre' ih =>
      intro X m hm
      simp only [List.cons_append]
      rw [List.dropWhile_cons]
      by_cases hp : p c = true
      · rw [if_pos hp, ih X m hm, List.dropWhile_cons, if_pos hp]
      · rw [if_neg hp, List.dropWhile_cons, if_neg hp]
        simp

theorem trim_mid (pre post Y : List Char) (m e : Char)
    (hm : isJSSpace m = false) (he : isJSSpace e = false) :
    trimJS (pre ++ (m :: (Y ++ e :: [])) ++ post) =
      pre.dropWhile isJSSpace ++ (m :: (Y ++ e :: [])) ++
        (post.reverse.dropWhile isJSSpace).reverse := by
  rw [trimJS]
  rw [show pre ++ (m :: (Y ++ e :: [])) ++ post =
    pre ++ m :: ((Y ++ e :: []) ++ post) from by simp]
  rw [dropWhile_mid isJSSpace pre ((Y ++ e :: []) ++ post) m hm]
  rw [show (pre.dropWhile isJSSpace ++ m :: ((Y ++ e :: []) ++ post)).reverse =
    post.reverse ++ e :: (Y.reverse ++ m :: (pre.dropWhile isJSSpace).reverse) from by
      simp [List.append_assoc]]
  rw [dropWhile_mid isJSSpace post.reverse
    (Y.reverse ++ m :: (pre.dropWhile isJSSpace).reverse) e he]
  simp [List.append_assoc]

/-- Claim C3: a bracketed non-negative integer index inside a
placeholder path resolves exactly like its dotted equivalent, for every
data object, every surrounding path text and every digit string: first
for the replacer itself (the normalization of src/index.js line 27
rewrites the bracketed segment to a dotted one in any context), then
for a whole template containing such a placeholder token. -/
theorem claim_C3 :
    (∀ (D : JSValue) (pre post ds : List Char),
      ds ≠ [] → (∀ c ∈ ds, c.isDigit = true) →
      replacePlaceholder D (pre ++ '[' :: (ds ++ ']' :: post)) =
        replacePlaceholder D (pre ++ '.' :: (ds ++ post))) ∧
    (∀ (D : JSValue) (t1 t2 pre post ds : List Char),
      (∀ c ∈ t1, c ≠ '{') →
      (∀ c ∈ pre ++ '[' :: (ds ++ ']' :: post), c ≠ '}' ∧ isLineTerm c = false) →
      ds ≠ [] → (∀ c ∈ ds, c.isDigit = true) →
      renderAux D (t1 ++ '{' :: '{' :: ((pre ++ '[' :: (ds ++ ']' :: post)) ++ '}' :: '}' :: t2)) =
        renderAux D (t1 ++ '{' :: '{' :: ((pre ++ '.' :: (ds ++ post)) ++ '}' :: '}' :: t2))) := by
  have hrepl : ∀ (D : JSValue) (pre post ds : List Char),
      ds ≠ [] → (∀ c ∈ ds, c.isDigit = true) →
      replacePlaceholder D (pre ++ '[' :: (ds ++ ']' :: post)) =
        replacePlaceholder D (pre ++ '.' :: (ds ++ post)) := by
    intro D pre post ds hne hdig
    have hclean : cleanPathOf (pre ++ '[' :: (ds ++ ']' :: post)) =
        cleanPathOf (pre ++ '.' :: (ds ++ post)) := by
      rw [cleanPathOf, cleanPathOf]
      have t1 : trimJS (pre ++ '[' :: (ds ++ ']' :: post)) =
          pre.dropWhile isJSSpace ++
            '[' :: (ds ++ ']' :: (post.reverse.dropWhile isJSSpace).reverse) := by
        have ht := trim_mid pre post ds '[' ']' (by decide) (by decide)
        rw [show pre ++ '[' :: (ds ++ ']' :: post) =
          pre ++ ('[' :: (ds ++ ']' :: [])) ++ post from by simp]
        rw [ht]
        simp
      obtain ⟨Y, e, hYe⟩ : ∃ Y e, ds = Y ++ e :: [] := by
        rcases List.eq_nil_or_concat ds with h | ⟨Y, e, h⟩
        · exact absurd h hne
        · exact ⟨Y, e, by rw [h]; simp⟩
      have hedig : e.isDigit = true := hdig e (by rw [hYe]; simp)
      have t2 : trimJS (pre ++ '.' :: (ds ++ post)) =
          pre.dropWhile isJSSpace ++
            '.' :: (ds ++ (post.reverse.dropWhile isJSSpace).reverse) := by
        have ht := trim_mid pre post Y '.' e (by decide) (digit_not_space e hedig)
        rw [show pre ++ '.' :: (ds ++ post) =
          pre ++ ('.' :: (Y ++ e :: [])) ++ post from by rw [hYe]; simp]
        rw [ht]
        rw [hYe]
        simp
      rw [t1, t2]
      simp only [normBrackets]
      exact normB_ins (pre.dropWhile isJSSpace).length _ ds _ (Nat.le_refl _) hne hdig
    rw [replacePlaceholder, replacePlaceholder, pathValue, pathValue, hclean]
  refine ⟨hrepl, ?_⟩
  intro D t1 t2 pre post ds h1 h2 hne hdig
  have h2dot : ∀ c ∈ pre ++ '.' :: (ds ++ post), c ≠ '}' ∧ isLineTerm c = false := by
    intro c hc
    simp only [List.mem_append, List.mem_cons] at hc
    rcases hc with hp | hc
    · exact h2 c (by simp [hp])
    rcases hc with rfl | hc
    · exact ⟨by decide, by decide⟩
    rcases hc with hd | hpost
    · exact h2 c (by simp [hd])
    · exact h2 c (by simp [hpost])
  rw [renderAux_append D t1 _ h1, renderAux_append D t1 _ h1]
  rw [renderAux_ph D _ t2 h2, renderAux_ph D _ t2 h2dot]
  rw [hrepl D pre post ds hne hdig]

def dataC3 : JSValue :=
  .obj [("items", .arr [.str "a", .str "b", .obj [("name", .str "N")]])]

theorem claim_C3_witness :
    (∀ c ∈ (("A ").data), c ≠ '{') ∧
    (∀ c ∈ ((("items").data) ++ '[' :: (('2' :: []) ++ ']' :: ((".name").data))),
      c ≠ '}' ∧ isLineTerm c = false) ∧
    (('2' :: []) : List Char) ≠ [] ∧ (∀ c ∈ (('2' :: []) : List Char), c.isDigit = true) ∧
    replacePlaceholder dataC3 ((("items").data) ++ '[' :: (('2' :: []) ++ ']' :: ((".name").data))) =
      replacePlaceholder dataC3 ((("items").data) ++ '.' :: (('2' :: []) ++ ((".name").data))) ∧
    renderAux dataC3 ((("A ").data) ++ '{' :: '{' ::
        (((("items").data) ++ '[' :: (('2' :: []) ++ ']' :: ((".name").data))) ++ '}' :: '}' :: (("B").data))) =
      renderAux dataC3 ((("A ").data) ++ '{' :: '{' ::
        (((("items").data) ++ '.' :: (('2' :: []) ++ ((".name").data))) ++ '}' :: '}' :: (("B").data))) :=
  ⟨by decide, by decide, by decide, by decide,
    claim_C3.1 dataC3 (("items").data) ((".name").data) ('2' :: []) (by decide) (by decide),
    claim_C3.2 dataC3 (("A ").data) (("B").data) (("items").data) ((".name").data) ('2' :: [])
      (by decide) (by decide) (by decide) (by decide)⟩
